import Mathlib

/-!
Verification development for the PDF match/rename/copy repository
(`main.py`, `match_pdfs.py`, `match_pdfs_by_name.py`).

Python strings are modelled as `List Char`; pure helper functions of the
three scripts are translated into executable Lean definitions.  Regular
expressions are modelled by explicit backtracking matchers that follow the
semantics of Python's `re` module (leftmost match for `re.search`,
left-anchored match for `re.match`, non-greedy `+?` trying the shortest
extension first, character classes as predicates).  `\d` is modelled as the
ASCII digits, `.upper()` as `Char.toUpper`, and string whitespace stripping
as `Char.isWhitespace` trimming; the filenames and spreadsheet cells handled
by these scripts contain CJK characters, ASCII digits, and the letter x,
for which these models agree with Python.
-/

set_option maxRecDepth 10000
set_option exponentiation.threshold 1100

/-- Model of Python `c in s` for a single character: `True` iff `ch` occurs in `l`. -/
def hasChar (ch : Char) : List Char → Bool
  | [] => false
  | c :: r => c = ch || hasChar ch r

/-- Model of Python substring containment `needle in hay`. -/
def hasSub (needle : List Char) : List Char → Bool
  | [] => List.isPrefixOf needle []
  | c :: rest => List.isPrefixOf needle (c :: rest) || hasSub needle rest

/-- Model of Python `str.strip()`: drop leading and trailing whitespace. -/
def pyStrip (l : List Char) : List Char :=
  ((l.dropWhile Char.isWhitespace).reverse.dropWhile Char.isWhitespace).reverse

/-- Model of Python set/list membership `x in xs` over string collections. -/
def inListB (x : List Char) : List (List Char) → Bool
  | [] => false
  | y :: r => x == y || inListB x r

/-- The fixed filename prefix literal 协商解除劳动合同协议书_ shared by
`main.py` and `match_pdfs.py` (the contract prefix used in both regexes). -/
def pfxChars : List Char :=
  ['协', '商', '解', '除', '劳', '动', '合', '同', '协', '议', '书', '_']

/-- The fixed extension literal `.pdf`. -/
def pdfChars : List Char := ['.', 'p', 'd', 'f']

/-- Model of `extract_contract_number` (src/main.py lines 105-119):
`re.match(r'协商解除劳动合同协议书_(\d+)\.pdf', pdf_filename)`.
`re.match` anchors at the start only; the greedy `\d+` takes the maximal
digit run, which must be nonempty and be followed immediately by `.pdf`;
anything may follow, since the pattern has no `$` anchor. -/
def extractContractNumber (f : List Char) : Option (List Char) :=
  if List.isPrefixOf pfxChars f then
    if (f.drop pfxChars.length).takeWhile Char.isDigit = [] then none
    else if List.isPrefixOf pdfChars
        ((f.drop pfxChars.length).dropWhile Char.isDigit) then
      some ((f.drop pfxChars.length).takeWhile Char.isDigit)
    else none
  else none

/-! ### Generic list lemmas used throughout -/

theorem isPrefixOf_append_self (l r : List Char) :
    List.isPrefixOf l (l ++ r) = true := by
  induction l with
  | nil => simp [List.isPrefixOf]
  | cons c cs ih => simp [List.isPrefixOf, ih]

theorem takeWhile_append_all {p : Char → Bool} {l₁ : List Char}
    (h : ∀ c ∈ l₁, p c = true) (l₂ : List Char) :
    (l₁ ++ l₂).takeWhile p = l₁ ++ l₂.takeWhile p := by
  induction l₁ with
  | nil => simp
  | cons c cs ih =>
      have hc : p c = true := h c (by simp)
      rw [List.cons_append, List.takeWhile_cons_of_pos hc,
        ih (fun d hd => h d (by simp [hd])), List.cons_append]

theorem dropWhile_append_all {p : Char → Bool} {l₁ : List Char}
    (h : ∀ c ∈ l₁, p c = true) (l₂ : List Char) :
    (l₁ ++ l₂).dropWhile p = l₂.dropWhile p := by
  induction l₁ with
  | nil => simp
  | cons c cs ih =>
      have hc : p c = true := h c (by simp)
      rw [List.cons_append, List.dropWhile_cons_of_pos hc]
      exact ih (fun d hd => h d (by simp [hd]))

theorem dropWhile_takeWhile_append {p : Char → Bool} (l : List Char) :
    l.takeWhile p ++ l.dropWhile p = l :=
  List.takeWhile_append_dropWhile p l

theorem isPrefixOf_exists : ∀ {l₁ l₂ : List Char},
    List.isPrefixOf l₁ l₂ = true → ∃ t, l₁ ++ t = l₂
  | [], l₂, _ => ⟨l₂, rfl⟩
  | _ :: _, [], h => by simp [List.isPrefixOf] at h
  | a :: as, b :: bs, h => by
      have h2 : (a == b) = true ∧ List.isPrefixOf as bs = true := by
        simpa [List.isPrefixOf, Bool.and_eq_true] using h
      obtain ⟨t, ht⟩ := isPrefixOf_exists h2.2
      exact ⟨t, by rw [List.cons_append, ht, (beq_iff_eq).mp h2.1]⟩

/-- Claim C3 counterexample input: the prefix, digits `123`, `.pdf`, and a
trailing junk character. -/
def c3Input : List Char := pfxChars ++ ['1', '2', '3'] ++ pdfChars ++ ['x']

/-- C3 (counterexample): the claim says any string with trailing characters
after `.pdf` yields no match, but `re.match` has no right anchor, so
`协商解除劳动合同协议书_123.pdfx` still extracts `123`. -/
theorem c3_counterexample : extractContractNumber c3Input = some ['1', '2', '3'] := by
  decide

/-- Claim C3 (amended): `extract_contract_number` is anchored at the start
only.  It returns the digit run for every string of the form
prefix ++ digits ++ ".pdf" ++ anything, and conversely every successful
extraction arises from such a decomposition. -/
theorem c3_amended :
    (∀ ds rest : List Char, ds ≠ [] → (∀ c ∈ ds, c.isDigit = true) →
      extractContractNumber (pfxChars ++ ds ++ pdfChars ++ rest) = some ds) ∧
    (∀ s ds : List Char, extractContractNumber s = some ds →
      ds ≠ [] ∧ (∀ c ∈ ds, c.isDigit = true) ∧
      ∃ rest, s = pfxChars ++ ds ++ pdfChars ++ rest) := by
  constructor
  · intro ds rest hne hdig
    have hassoc : pfxChars ++ ds ++ pdfChars ++ rest
        = pfxChars ++ (ds ++ (pdfChars ++ rest)) := by simp
    have hdrop : (pfxChars ++ (ds ++ (pdfChars ++ rest))).drop pfxChars.length
        = ds ++ (pdfChars ++ rest) := List.drop_left _ _
    have htw : (ds ++ (pdfChars ++ rest)).takeWhile Char.isDigit = ds := by
      rw [takeWhile_append_all hdig]
      have h0 : (pdfChars ++ rest).takeWhile Char.isDigit = [] := by
        rw [show pdfChars ++ rest = '.' :: (['p', 'd', 'f'] ++ rest) from rfl,
          List.takeWhile_cons_of_neg (by decide)]
      rw [h0, List.append_nil]
    have hdw : (ds ++ (pdfChars ++ rest)).dropWhile Char.isDigit = pdfChars ++ rest := by
      rw [dropWhile_append_all hdig]
      rw [show pdfChars ++ rest = '.' :: (['p', 'd', 'f'] ++ rest) from rfl,
        List.dropWhile_cons_of_neg (by decide)]
    rw [hassoc]
    unfold extractContractNumber
    rw [if_pos (isPrefixOf_append_self _ _), hdrop, htw, hdw,
      if_neg hne, if_pos (isPrefixOf_append_self _ _)]
  · intro s ds h
    unfold extractContractNumber at h
    by_cases hp : List.isPrefixOf pfxChars s = true
    · rw [if_pos hp] at h
      by_cases hds : (s.drop pfxChars.length).takeWhile Char.isDigit = []
      · rw [if_pos hds] at h; exact absurd h (by simp)
      · rw [if_neg hds] at h
        by_cases hpdf : List.isPrefixOf pdfChars
            ((s.drop pfxChars.length).dropWhile Char.isDigit) = true
        · rw [if_pos hpdf] at h
          have hdseq : ds = (s.drop pfxChars.length).takeWhile Char.isDigit := by
            simpa [eq_comm] using h
          refine ⟨hdseq ▸ hds, fun c hc => List.mem_takeWhile_imp (hdseq ▸ hc), ?_⟩
          obtain ⟨t2, ht2⟩ := isPrefixOf_exists hpdf
          refine ⟨t2, ?_⟩
          obtain ⟨t, ht⟩ := isPrefixOf_exists hp
          have hts : t = s.drop pfxChars.length := by
            rw [← ht, List.drop_left]
          calc s = pfxChars ++ t := ht.symm
            _ = pfxChars ++ (s.drop pfxChars.length) := by rw [hts]
            _ = pfxChars ++ ((s.drop pfxChars.length).takeWhile Char.isDigit
                ++ (s.drop pfxChars.length).dropWhile Char.isDigit) := by
                  rw [dropWhile_takeWhile_append]
            _ = pfxChars ++ ds ++ pdfChars ++ t2 := by
                  rw [← ht2, ← hdseq]; simp
        · rw [if_neg hpdf] at h; exact absurd h (by simp)
    · rw [if_neg hp] at h; exact absurd h (by simp)

/-- Witness for the amended C3: instantiating at digits `7` and empty tail. -/
theorem c3_amended_witness :
    extractContractNumber (pfxChars ++ ['7'] ++ pdfChars ++ []) = some ['7'] :=
  c3_amended.1 ['7'] [] (by decide) (by decide)

/-! ### Grammar B: `extract_name_and_id_from_filename` (src/match_pdfs.py 113-153) -/

/-- Model of `\d{n}` matched against the first `n` characters: `true` iff the
list starts with at least `n` ASCII digits. -/
def isDigits : ℕ → List Char → Bool
  | 0, _ => true
  | _ + 1, [] => false
  | n + 1, c :: cs => c.isDigit && isDigits n cs

/-- The character class `[\dX]` under `re.IGNORECASE`: a digit, `X` or `x`. -/
def isIdLast (c : Char) : Bool :=
  c.isDigit || c = 'X' || c = 'x'

/-- Matches `\d{17}[\dX]` (with IGNORECASE) at the head of the list,
returning the 18-character token. -/
def idTokenAt (l : List Char) : Option (List Char) :=
  if isDigits 17 l then
    match l.drop 17 with
    | c :: _ => if isIdLast c then some (l.take 18) else none
    | [] => none
  else none

/-- Matches `\.pdf` under `re.IGNORECASE` at the head of the list. -/
def pdfCiAt : List Char → Bool
  | d :: p :: q :: f :: _ =>
      d = '.' && (p = 'p' || p = 'P') && (q = 'd' || q = 'D') && (f = 'f' || f = 'F')
  | _ => false

/-- The tail of the primary pattern `(.+?)(\d{17}[\dX])\.pdf` after the
prefix literal: the non-greedy `(.+?)` is grown one character at a time
(shortest first, `.` does not match a newline), and at each length the
engine tries `\d{17}[\dX]` then `\.pdf` at the following position.
`acc` holds the reversed name captured so far. -/
def findNameId (acc : List Char) : List Char → Option (List Char × List Char)
  | [] => none
  | c :: rest =>
    if c = '\n' then none
    else
      match idTokenAt rest with
      | some tok =>
          if pdfCiAt (rest.drop 18) then some ((c :: acc).reverse, tok)
          else findNameId (c :: acc) rest
      | none => findNameId (c :: acc) rest

/-- Model of `re.search` for the primary pattern of
`extract_name_and_id_from_filename`: the whole pattern is tried at each
start position from the left; at a given start the prefix literal must
match, then `findNameId` runs on the remainder.  Leftmost start wins. -/
def searchNameId : List Char → Option (List Char × List Char)
  | [] => none
  | c :: rest =>
    if List.isPrefixOf pfxChars (c :: rest) then
      match findNameId [] ((c :: rest).drop pfxChars.length) with
      | some r => some r
      | none => searchNameId rest
    else searchNameId rest

/-- Scanner for `re.findall(r'\d{17}[\dX]', s, re.IGNORECASE)`: leftmost
non-overlapping matches.  The first argument is the number of characters
still to skip after a token was consumed (a matched token spans the head
character plus 17 more). -/
def faAux : ℕ → List Char → List (List Char)
  | _, [] => []
  | n + 1, _ :: rest => faAux n rest
  | 0, c :: rest =>
    match idTokenAt (c :: rest) with
    | some tok => tok :: faAux 17 rest
    | none => faAux 0 rest

/-- Model of `re.findall(r'\d{17}[\dX]', s, re.IGNORECASE)`. -/
def findAllIds (l : List Char) : List (List Char) := faAux 0 l

/-- Scanner for `pdf_filename.replace(".pdf", "")`: removes every
(case-sensitive, non-overlapping, leftmost-first) occurrence of `.pdf`.
The first argument counts characters still to skip after a match. -/
def replAux : ℕ → List Char → List Char
  | _, [] => []
  | n + 1, _ :: rest => replAux n rest
  | 0, c :: rest =>
    if List.isPrefixOf pdfChars (c :: rest) then replAux 3 rest
    else c :: replAux 0 rest

/-- Model of `str.upper()` restricted to ASCII case mapping (the filenames
handled here contain CJK characters, digits and `x`, on which this agrees
with Python). -/
def upChars (l : List Char) : List Char := l.map Char.toUpper

/-- Model of `extract_name_and_id_from_filename` (src/match_pdfs.py
113-153): primary unanchored `re.search`, then the fallback that takes the
last `findall` token, checks the stem starts with the prefix, checks the
upper-cased remainder ends with the token, and strips the trailing
18 characters. -/
def extractNameId (f : List Char) : Option (List Char × List Char) :=
  match searchNameId f with
  | some (n, tok) => some (n, upChars tok)
  | none =>
    match (findAllIds (replAux 0 f)).getLast? with
    | none => none
    | some last =>
      if List.isPrefixOf pfxChars (replAux 0 f) then
        if List.isSuffixOf (upChars last)
            (upChars ((replAux 0 f).drop pfxChars.length)) then
          some (((replAux 0 f).drop pfxChars.length).take
              (((replAux 0 f).drop pfxChars.length).length - 18), upChars last)
        else none
      else none

/-- Model of `extract_id_number_from_filename` (src/match_pdfs.py 156-173). -/
def extractIdNum (f : List Char) : Option (List Char) :=
  match extractNameId f with
  | some (_, i) => some i
  | none => none

/-- A valid 18-character ID token: `\d{17}` then `[\dXx]`, with nothing
after (so the length is exactly 18). -/
def isId18 (l : List Char) : Bool :=
  isDigits 17 l &&
    match l.drop 17 with
    | [c] => isIdLast c
    | _ => false

example : extractNameId ('A' :: (pfxChars ++ '王' ::
    (['1','2','3','4','5','6','7','8','9','0','1','2','3','4','5','6','7','X'] ++ pdfChars)))
    = some (['王'], ['1','2','3','4','5','6','7','8','9','0','1','2','3','4','5','6','7','X']) := by
  decide

example : extractNameId (pfxChars ++
    (['1','2','3','4','5','6','7','8','9','0','1','2','3','4','5','6','7','x'] ++ pdfChars))
    = some ([], ['1','2','3','4','5','6','7','8','9','0','1','2','3','4','5','6','7','X']) := by
  decide

/-! ### Facts about the ID-token scanner -/

theorem isDigits_le_length : ∀ (n : ℕ) (l : List Char), isDigits n l = true → n ≤ l.length
  | 0, _, _ => Nat.zero_le _
  | n + 1, [], h => by simp [isDigits] at h
  | n + 1, c :: cs, h => by
      simp only [isDigits, Bool.and_eq_true] at h
      simpa using isDigits_le_length n cs h.2

theorem isDigits_append : ∀ (n : ℕ) (l r : List Char),
    isDigits n l = true → isDigits n (l ++ r) = true
  | 0, _, _, _ => rfl
  | n + 1, [], r, h => by simp [isDigits] at h
  | n + 1, c :: cs, r, h => by
      simp only [isDigits, Bool.and_eq_true] at h ⊢
      exact ⟨h.1, isDigits_append n cs r h.2⟩

theorem isDigits_take_mem : ∀ (n : ℕ) (l : List Char), isDigits n l = true →
    ∀ c ∈ l.take n, c.isDigit = true
  | 0, _, _, c, hc => by simp at hc
  | n + 1, [], h, c, hc => by simp [isDigits] at h
  | n + 1, d :: cs, h, c, hc => by
      simp only [isDigits, Bool.and_eq_true] at h
      simp only [List.take_succ_cons, List.mem_cons] at hc
      rcases hc with rfl | hc
      · exact h.1
      · exact isDigits_take_mem n cs h.2 c hc

theorem isId18_parts {t : List Char} (h : isId18 t = true) :
    isDigits 17 t = true ∧ ∃ c, t.drop 17 = [c] ∧ isIdLast c = true := by
  simp only [isId18, Bool.and_eq_true] at h
  refine ⟨h.1, ?_⟩
  rcases hd : t.drop 17 with _ | ⟨c, _ | ⟨d, r⟩⟩ <;> rw [hd] at h
  · simp at h
  · exact ⟨c, rfl, h.2⟩
  · simp at h

theorem isId18_length {t : List Char} (h : isId18 t = true) : t.length = 18 := by
  obtain ⟨h17, c, hd, _⟩ := isId18_parts h
  have h1 := isDigits_le_length 17 t h17
  have h2 : (t.drop 17).length = 1 := by rw [hd]; rfl
  rw [List.length_drop] at h2
  omega

theorem idTokenAt_of_isId18 {t : List Char} (h : isId18 t = true) (r : List Char) :
    idTokenAt (t ++ r) = some t := by
  obtain ⟨h17, c, hd, hlast⟩ := isId18_parts h
  have hlen := isId18_length h
  have hd2 : (t ++ r).drop 17 = c :: r := by
    rw [List.drop_append_of_le_length (by omega), hd]; rfl
  have ht2 : (t ++ r).take 18 = t := by
    rw [List.take_append_of_le_length (by omega), List.take_of_length_le (by omega)]
  unfold idTokenAt
  rw [if_pos (isDigits_append 17 t r h17), hd2]
  simp only [if_pos hlast, ht2]

theorem isId18_mem {t : List Char} (h : isId18 t = true) :
    ∀ c ∈ t, c.isDigit = true ∨ c = 'X' ∨ c = 'x' := by
  obtain ⟨h17, d, hd, hlast⟩ := isId18_parts h
  intro c hc
  rw [← List.take_append_drop 17 t, List.mem_append] at hc
  rcases hc with hc | hc
  · exact Or.inl (isDigits_take_mem 17 t h17 c hc)
  · rw [hd, List.mem_singleton] at hc
    subst hc
    simp only [isIdLast, Bool.or_eq_true, beq_iff_eq, decide_eq_true_eq] at hlast
    rcases hlast with (h1 | h2) | h3
    · exact Or.inl h1
    · exact Or.inr (Or.inl h2)
    · exact Or.inr (Or.inr h3)

theorem isId18_ne_dot {t : List Char} (h : isId18 t = true) :
    ∀ c ∈ t, c ≠ '.' := by
  intro c hc he
  rcases isId18_mem h c hc with h1 | h2 | h3
  · rw [he] at h1; exact absurd h1 (by decide)
  · rw [he] at h2; exact absurd h2 (by decide)
  · rw [he] at h3; exact absurd h3 (by decide)

theorem pdfCiAt_of_short {l : List Char} (h : l.length < 4) : pdfCiAt l = false := by
  rcases l with _ | ⟨a, _ | ⟨b, _ | ⟨c, _ | ⟨d, r⟩⟩⟩⟩
  · rfl
  · rfl
  · rfl
  · rfl
  · simp at h; omega

theorem findNameId_none_of_short : ∀ (l : List Char) (acc : List Char),
    l.length < 23 → findNameId acc l = none
  | [], acc, _ => rfl
  | c :: rest, acc, h => by
      unfold findNameId
      by_cases hc : c = '\n'
      · rw [if_pos hc]
      · rw [if_neg hc]
        have hrest : rest.length < 23 := by simp at h; omega
        cases htok : idTokenAt rest with
        | none => exact findNameId_none_of_short rest (c :: acc) hrest
        | some tok =>
            have hp : pdfCiAt (rest.drop 18) = false := by
              apply pdfCiAt_of_short
              rw [List.length_drop]
              simp at h; omega
            rw [hp]
            simp only [Bool.false_eq_true, if_false]
            exact findNameId_none_of_short rest (c :: acc) hrest

theorem searchNameId_none_of_short : ∀ l : List Char,
    l.length < 35 → searchNameId l = none
  | [], _ => rfl
  | c :: rest, h => by
      unfold searchNameId
      have hrest : rest.length < 35 := by simp at h; omega
      by_cases hp : List.isPrefixOf pfxChars (c :: rest) = true
      · rw [if_pos hp]
        have hfn : findNameId [] ((c :: rest).drop pfxChars.length) = none := by
          apply findNameId_none_of_short
          rw [List.length_drop]
          have h12 : pfxChars.length = 12 := rfl
          rw [h12]
          simp at h ⊢; omega
        rw [hfn]
        exact searchNameId_none_of_short rest hrest
      · rw [if_neg hp]
        exact searchNameId_none_of_short rest hrest

theorem faAux_nil_of_le : ∀ (l : List Char) (n : ℕ), l.length ≤ n → faAux n l = []
  | [], 0, _ => rfl
  | [], _ + 1, _ => rfl
  | c :: rest, 0, h => by simp at h
  | c :: rest, n + 1, h => by
      show faAux n rest = []
      exact faAux_nil_of_le rest n (by simp at h; omega)

theorem faAux_of_isId18 {t : List Char} (h : isId18 t = true) : faAux 0 t = [t] := by
  have hlen := isId18_length h
  rcases t with _ | ⟨c, rest⟩
  · simp at hlen
  · have htok : idTokenAt (c :: rest) = some (c :: rest) := by
      have h2 := idTokenAt_of_isId18 h []
      rwa [List.append_nil] at h2
    have hrest : faAux 17 rest = [] :=
      faAux_nil_of_le rest 17 (by simp at hlen; omega)
    simp only [faAux, htok, hrest]

theorem replAux_append_no_dot {l₁ : List Char} (h : ∀ c ∈ l₁, c ≠ '.')
    (l₂ : List Char) : replAux 0 (l₁ ++ l₂) = l₁ ++ replAux 0 l₂ := by
  induction l₁ with
  | nil => simp
  | cons c cs ih =>
      have hc : c ≠ '.' := h c (by simp)
      have hp : List.isPrefixOf pdfChars (c :: (cs ++ l₂)) = false := by
        show (('.' : Char) == c && List.isPrefixOf ['p', 'd', 'f'] (cs ++ l₂)) = false
        have : (('.' : Char) == c) = false := beq_eq_false_iff_ne.mpr (Ne.symm hc)
        rw [this, Bool.false_and]
      simp only [List.cons_append, replAux, hp, Bool.false_eq_true, if_false,
        List.append_eq]
      rw [ih (fun d hd => h d (by simp [hd]))]

theorem isPrefixOf_self (l : List Char) : List.isPrefixOf l l = true := by
  have := isPrefixOf_append_self l []
  rwa [List.append_nil] at this

theorem isSuffixOf_self (l : List Char) : List.isSuffixOf l l = true :=
  isPrefixOf_self l.reverse

theorem getLast?_single (x : List Char) : ([x] : List (List Char)).getLast? = some x := rfl

/-- One-step equation for `searchNameId` on a cons cell. -/
theorem searchNameId_cons (c : Char) (rest : List Char) :
    searchNameId (c :: rest) =
      if List.isPrefixOf pfxChars (c :: rest) then
        match findNameId [] ((c :: rest).drop pfxChars.length) with
        | some r => some r
        | none => searchNameId rest
      else searchNameId rest := rfl

theorem findNameId_cons_id {c : Char} {t : List Char} (acc : List Char)
    (hc : c ≠ '\n') (ht : isId18 t = true) :
    findNameId acc (c :: (t ++ pdfChars)) = some ((c :: acc).reverse, t) := by
  have hlen := isId18_length ht
  have htok := idTokenAt_of_isId18 ht pdfChars
  have hdrop : (t ++ pdfChars).drop 18 = pdfChars := List.drop_left' hlen
  simp only [findNameId, hc, Bool.false_eq_true, if_false, htok, hdrop,
    if_pos (show pdfCiAt pdfChars = true from rfl)]

/-- `re.search` finds the primary pattern when the string is the prefix
literal followed by a one-character name, a valid ID token and `.pdf`. -/
theorem searchNameId_found {c : Char} {t : List Char}
    (hc : c ≠ '\n') (ht : isId18 t = true) :
    searchNameId (pfxChars ++ (c :: (t ++ pdfChars))) = some ([c], t) := by
  have e1 : searchNameId (pfxChars ++ (c :: (t ++ pdfChars))) =
      if List.isPrefixOf pfxChars (pfxChars ++ (c :: (t ++ pdfChars))) then
        match findNameId [] ((pfxChars ++ (c :: (t ++ pdfChars))).drop pfxChars.length) with
        | some r => some r
        | none => searchNameId ((pfxChars ++ (c :: (t ++ pdfChars))).tail)
      else searchNameId ((pfxChars ++ (c :: (t ++ pdfChars))).tail) := rfl
  rw [e1, if_pos (isPrefixOf_append_self _ _), List.drop_left,
    findNameId_cons_id [] hc ht]
  simp

/-- The fallback path of `extract_name_and_id_from_filename` on a filename
that is exactly the prefix literal, a valid ID token, and `.pdf`: the
primary pattern cannot match (it needs a non-empty name segment), findall
sees exactly one token, and the name comes out empty. -/
theorem extractNameId_pfx_id {t : List Char} (h : isId18 t = true) :
    extractNameId (pfxChars ++ (t ++ pdfChars)) = some ([], upChars t) := by
  have hlen := isId18_length h
  have hsearch : searchNameId (pfxChars ++ (t ++ pdfChars)) = none := by
    apply searchNameId_none_of_short
    have h12 : pfxChars.length = 12 := rfl
    have h4 : pdfChars.length = 4 := rfl
    simp only [List.length_append, h12, h4, hlen]
    omega
  have hrepl : replAux 0 (pfxChars ++ (t ++ pdfChars)) = pfxChars ++ t := by
    rw [replAux_append_no_dot (by decide) (t ++ pdfChars),
      replAux_append_no_dot (isId18_ne_dot h) pdfChars,
      show replAux 0 pdfChars = [] from rfl, List.append_nil]
  have hfa : findAllIds (pfxChars ++ t) = [t] := by
    show faAux 0 (pfxChars ++ t) = [t]
    rw [show faAux 0 (pfxChars ++ t) = faAux 0 t from rfl]
    exact faAux_of_isId18 h
  unfold extractNameId
  rw [hsearch]
  simp only [hrepl, hfa, getLast?_single, isPrefixOf_append_self, if_true,
    List.drop_left, isSuffixOf_self, hlen, Nat.sub_self, List.take_zero]

/-- C5 (counterexample) input pieces: a junk letter before the prefix, a
single-character name, and a valid uppercase token. -/
def cxToken : List Char :=
  ['1', '2', '3', '4', '5', '6', '7', '8', '9', '0', '1', '2', '3', '4', '5', '6', '7', 'X']

/-- C5 (counterexample): the claim says a filename with extra characters
before the prefix is not matched by the primary attempt and yields no match
overall; but the primary pattern is applied with `re.search`, which is
unanchored, so `A协商解除劳动合同协议书_王<token>.pdf` is matched by the
primary attempt and the extraction succeeds. -/
theorem c5_counterexample :
    searchNameId ('A' :: (pfxChars ++ '王' :: (cxToken ++ pdfChars)))
        = some (['王'], cxToken) ∧
    extractNameId ('A' :: (pfxChars ++ '王' :: (cxToken ++ pdfChars)))
        = some (['王'], cxToken) := by
  constructor
  · decide
  · decide

/-- Claim C5 (amended): the primary attempt of
`extract_name_and_id_from_filename` is an unanchored `re.search`: for any
junk character other than the prefix head, any non-newline name character
and any valid 18-character ID token, a filename consisting of the junk
character, the prefix literal, the name character, the token and `.pdf` IS
matched by the primary attempt, and the extraction succeeds with the name
and the upper-cased token. -/
theorem c5_amended (j c : Char) (t : List Char) (hj : j ≠ '协') (hc : c ≠ '\n')
    (ht : isId18 t = true) :
    extractNameId (j :: (pfxChars ++ (c :: (t ++ pdfChars))))
      = some ([c], upChars t) := by
  have hp : List.isPrefixOf pfxChars (j :: (pfxChars ++ (c :: (t ++ pdfChars)))) = false := by
    show (('协' : Char) == j && List.isPrefixOf
      ['商', '解', '除', '劳', '动', '合', '同', '协', '议', '书', '_']
      (pfxChars ++ (c :: (t ++ pdfChars)))) = false
    rw [beq_eq_false_iff_ne.mpr (Ne.symm hj), Bool.false_and]
  have hs : searchNameId (j :: (pfxChars ++ (c :: (t ++ pdfChars)))) = some ([c], t) := by
    rw [searchNameId_cons, hp]
    simp only [Bool.false_eq_true, if_false]
    exact searchNameId_found hc ht
  unfold extractNameId
  rw [hs]

/-- C5 (counterexample) lowercase-token variant used by the witness. -/
def cxTokenLower : List Char :=
  ['1', '2', '3', '4', '5', '6', '7', '8', '9', '0', '1', '2', '3', '4', '5', '6', '7', 'x']

/-- Witness for the amended C5 at concrete junk, name and token. -/
theorem c5_amended_witness :
    extractNameId ('B' :: (pfxChars ++ ('李' :: (cxTokenLower ++ pdfChars))))
      = some (['李'], upChars cxTokenLower) :=
  c5_amended 'B' '李' cxTokenLower (by decide) (by decide) (by decide)

/-! ### Model of `str(int(float(s)))` (src/main.py 88-93, src/match_pdfs.py
102-107): decimal-to-binary64 conversion, truncation to int, decimal
rendering.  `float` on a decimal literal rounds the exact rational value to
the nearest IEEE-754 binary64 (ties to even, overflow to infinity, in which
case `int()` raises `OverflowError`, caught by the scripts).  The parser
covers the dotted literals Python's `float` accepts apart from underscore
separators, which cell renderings never contain. -/

/-- The decimal digit character for `d % 10`-sized values. -/
def digitCh : ℕ → Char
  | 0 => '0' | 1 => '1' | 2 => '2' | 3 => '3' | 4 => '4'
  | 5 => '5' | 6 => '6' | 7 => '7' | 8 => '8' | _ => '9'

/-- Numeric value of a decimal digit character. -/
def digitVal (c : Char) : ℕ := c.toNat - 48

/-- Fuel-driven decimal rendering of a natural number (most significant
digit first); the fuel only needs to exceed the digit count. -/
def natChAux : ℕ → ℕ → List Char
  | 0, _ => []
  | f + 1, n => if n < 10 then [digitCh n] else natChAux f (n / 10) ++ [digitCh (n % 10)]

/-- Model of Python `str(n)` for a non-negative integer. -/
def natToChars (n : ℕ) : List Char := natChAux (n + 1) n

/-- Numeric value of a digit string (`int(s)` on an all-digit string). -/
def charsToNat (l : List Char) : ℕ :=
  l.foldl (fun a c => 10 * a + digitVal c) 0

/-- Model of Python `str(z)` for an integer. -/
def intToChars (z : ℤ) : List Char :=
  if z < 0 then '-' :: natToChars z.natAbs else natToChars z.toNat

/-- Fuel-driven ⌊log₂⌋ on naturals (`0` for `n < 2`). -/
def log2fuel : ℕ → ℕ → ℕ
  | 0, _ => 0
  | f + 1, n => if n < 2 then 0 else log2fuel f (n / 2) + 1

/-- ⌊log₂ n⌋ with self-sufficient fuel. -/
def log2n (n : ℕ) : ℕ := log2fuel n n

/-- Round `a / b` to the nearest integer, ties to even. -/
def roundNEdiv (a b : ℕ) : ℕ :=
  if 2 * (a % b) < b then a / b
  else if b < 2 * (a % b) then a / b + 1
  else if a / b % 2 = 0 then a / b else a / b + 1

/-- ⌊log₂ (num/den)⌋ for a positive rational given as `num / den`. -/
def ratExp (num den : ℕ) : ℤ :=
  if den ≤ num then (log2n (num / den) : ℤ)
  else if den ≤ num * 2 ^ log2n (den / num) then -(log2n (den / num) : ℤ)
  else -(log2n (den / num) + 1 : ℤ)

/-- Round the positive rational `num / den` to IEEE-754 binary64 precision:
returns the significand `m` and the scale `s` with rounded value `m·2^s`
(53 significant bits, subnormal floor at `2^-1074`). -/
def roundedPair (num den : ℕ) : ℕ × ℤ :=
  if num = 0 then (0, 0)
  else
    if 0 ≤ ratExp num den - 52 then
      if -1074 ≤ ratExp num den - 52 then
        (roundNEdiv num (den * 2 ^ (ratExp num den - 52).toNat), ratExp num den - 52)
      else (roundNEdiv (num * 2 ^ (1074 : ℕ)) den, -1074)
    else
      if -1074 ≤ ratExp num den - 52 then
        (roundNEdiv (num * 2 ^ (-(ratExp num den - 52)).toNat) den, ratExp num den - 52)
      else (roundNEdiv (num * 2 ^ (1074 : ℕ)) den, -1074)

/-- `True` when the rounded value `m·2^s` is at least `2^1024`, the IEEE-754
binary64 overflow threshold (then `float` is infinite and `int()` raises). -/
def overflowChk (m : ℕ) (s : ℤ) : Bool :=
  decide (0 ≤ s) && decide (2 ^ 1024 ≤ m * 2 ^ s.toNat)

/-- Parse an optional sign (Python float literals allow `+`/`-`). -/
def parseSgn : List Char → Bool × List Char
  | [] => (false, [])
  | c :: r => if c = '-' then (true, r) else if c = '+' then (false, r) else (false, c :: r)

/-- Parse an exponent digit string after `e`/`E` and its sign. -/
def parseExp (negE : Bool) (l6 : List Char) : Option ℤ :=
  if l6.takeWhile Char.isDigit = [] ∨ l6.dropWhile Char.isDigit ≠ [] then none
  else some (if negE then -(charsToNat (l6.takeWhile Char.isDigit) : ℤ)
    else (charsToNat (l6.takeWhile Char.isDigit) : ℤ))

/-- Parse the body of a dotted decimal literal after the sign:
`digits . digits [e [sign] digits]`. -/
def parseBody (neg : Bool) (l1 : List Char) : Option (Bool × ℕ × ℕ × ℤ) :=
  match l1.dropWhile Char.isDigit with
  | c :: l3 =>
    if c = '.' then
      if l1.takeWhile Char.isDigit = [] ∧ l3.takeWhile Char.isDigit = [] then none
      else
        match l3.dropWhile Char.isDigit with
        | [] => some (neg,
            charsToNat (l1.takeWhile Char.isDigit ++ l3.takeWhile Char.isDigit),
            (l3.takeWhile Char.isDigit).length, 0)
        | c2 :: l5 =>
          if c2 = 'e' ∨ c2 = 'E' then
            match parseExp (parseSgn l5).1 (parseSgn l5).2 with
            | none => none
            | some e => some (neg,
                charsToNat (l1.takeWhile Char.isDigit ++ l3.takeWhile Char.isDigit),
                (l3.takeWhile Char.isDigit).length, e)
          else none
    else none
  | [] => none

/-- Parse a dotted decimal literal `[sign] digits . digits [e [sign] digits]`
into (negative, digit value, fraction length, exponent); `none` models
`ValueError` from Python's `float`. -/
def pyParseDec (s : List Char) : Option (Bool × ℕ × ℕ × ℤ) :=
  parseBody (parseSgn s).1 (parseSgn s).2

/-- Numerator of the exact rational value `n·10^e / 10^k` of a parsed
literal, after clearing the power of ten to one side. -/
def decNum (n k : ℕ) (e : ℤ) : ℕ :=
  if 0 ≤ e - (k : ℤ) then n * 10 ^ (e - (k : ℤ)).toNat else n

/-- Denominator matching `decNum`. -/
def decDen (k : ℕ) (e : ℤ) : ℕ :=
  if 0 ≤ e - (k : ℤ) then 1 else 10 ^ ((k : ℤ) - e).toNat

/-- Round `num / den` to binary64 and truncate the result toward zero;
`none` is the overflow-to-infinity case. -/
def truncFloat (num den : ℕ) : Option ℕ :=
  if overflowChk (roundedPair num den).1 (roundedPair num den).2 then none
  else some (if 0 ≤ (roundedPair num den).2
    then (roundedPair num den).1 * 2 ^ (roundedPair num den).2.toNat
    else (roundedPair num den).1 / 2 ^ (-(roundedPair num den).2).toNat)

/-- Model of `int(float(s))` for a dotted literal: parse, round the exact
rational `N·10^e / 10^k` to binary64, truncate toward zero; `none` models a
`ValueError`/`OverflowError` caught by the scripts. -/
def pyFloatToInt (s : List Char) : Option ℤ :=
  match pyParseDec s with
  | none => none
  | some (neg, n, k, e) =>
    if n = 0 then some 0
    else
      match truncFloat (decNum n k e) (decDen k e) with
      | none => none
      | some t => some (if neg then -(t : ℤ) else (t : ℤ))

/-- Model of the normalization snippet shared by `read_excel_mapping`
(src/main.py 88-93) and `read_excel_id_numbers` (src/match_pdfs.py
102-107): `if '.' in v: try: v = str(int(float(v))) except ...: pass`. -/
def normalizeNumeric (s : List Char) : List Char :=
  if hasChar '.' s then
    match pyFloatToInt s with
    | some z => intToChars z
    | none => s
  else s

example : normalizeNumeric ['5', '.', '0'] = ['5'] := by decide
example : normalizeNumeric ['1', '2', '3', 'a'] = ['1', '2', '3', 'a'] := by decide
example : normalizeNumeric ['x', '.', 'y'] = ['x', '.', 'y'] := by decide
example : normalizeNumeric ['1', '.', '5'] = ['1'] := by decide
example : normalizeNumeric ['1', '.', '5', 'e', '3'] = ['1', '5', '0', '0'] := by decide

example : normalizeNumeric
    ['1','0','0','0','0','0','0','0','0','0','0','0','0','0','0','0','0','1','.','0']
    = ['1','0','0','0','0','0','0','0','0','0','0','0','0','0','0','0','0','0'] := by
  decide

example : normalizeNumeric ['2', '.', '5'] = ['2'] := by decide
example : normalizeNumeric ['0', '.', '5'] = ['0'] := by decide
example : normalizeNumeric ['.', '5', 'e', '1'] = ['5'] := by decide
example : normalizeNumeric ['1', '.', '5', 'e', '-', '3'] = ['0'] := by decide
example : normalizeNumeric ['1', '2', '3', '.'] = ['1', '2', '3'] := by decide
example : normalizeNumeric ['-', '.', '2', '5'] = ['0'] := by decide
example : normalizeNumeric ['1', 'e', '3', '.', '0'] = ['1', 'e', '3', '.', '0'] := by decide
example : normalizeNumeric ['.'] = ['.'] := by decide
example : normalizeNumeric
    ['9','0','0','7','1','9','9','2','5','4','7','4','0','9','9','3','.','0']
    = ['9','0','0','7','1','9','9','2','5','4','7','4','0','9','9','2'] := by decide

/-! ### Arithmetic lemmas for the float model -/

theorem digitVal_digitCh : ∀ d < 10, digitVal (digitCh d) = d := by decide

theorem isDigit_digitCh : ∀ d < 10, (digitCh d).isDigit = true := by decide

theorem charsToNat_append_one (l : List Char) (c : Char) :
    charsToNat (l ++ [c]) = 10 * charsToNat l + digitVal c := by
  unfold charsToNat
  rw [List.foldl_append]
  rfl

theorem charsToNat_natChAux : ∀ (f n : ℕ), n < f → charsToNat (natChAux f n) = n
  | 0, n, h => absurd h (by omega)
  | f + 1, n, h => by
      unfold natChAux
      by_cases h10 : n < 10
      · rw [if_pos h10]
        have h1 : charsToNat [digitCh n] = digitVal (digitCh n) := by
          unfold charsToNat
          simp [List.foldl]
        rw [h1, digitVal_digitCh n h10]
      · rw [if_neg h10, charsToNat_append_one,
          charsToNat_natChAux f (n / 10) (by omega),
          digitVal_digitCh (n % 10) (by omega)]
        omega

theorem natToChars_eval (n : ℕ) : charsToNat (natToChars n) = n :=
  charsToNat_natChAux (n + 1) n (by omega)

theorem natChAux_digits : ∀ (f n : ℕ), ∀ c ∈ natChAux f n, c.isDigit = true
  | 0, _, c, hc => by simp [natChAux] at hc
  | f + 1, n, c, hc => by
      unfold natChAux at hc
      by_cases h10 : n < 10
      · rw [if_pos h10] at hc
        simp at hc
        subst hc
        exact isDigit_digitCh n h10
      · rw [if_neg h10, List.mem_append] at hc
        rcases hc with hc | hc
        · exact natChAux_digits f (n / 10) c hc
        · simp at hc
          subst hc
          exact isDigit_digitCh (n % 10) (by omega)

theorem natToChars_digits (n : ℕ) : ∀ c ∈ natToChars n, c.isDigit = true :=
  natChAux_digits (n + 1) n

theorem natToChars_ne_nil (n : ℕ) : natToChars n ≠ [] := by
  unfold natToChars natChAux
  by_cases h10 : n < 10
  · rw [if_pos h10]; simp
  · rw [if_neg h10]; simp

theorem log2fuel_le : ∀ (f n k : ℕ), n < 2 ^ (k + 1) → log2fuel f n ≤ k
  | 0, _, k, _ => Nat.zero_le k
  | f + 1, n, k, h => by
      unfold log2fuel
      by_cases h2 : n < 2
      · rw [if_pos h2]; exact Nat.zero_le k
      · rw [if_neg h2]
        rcases k with _ | k'
        · exfalso; rw [pow_one] at h; omega
        · have hlt : n / 2 < 2 ^ (k' + 1) := by
            apply Nat.div_lt_of_lt_mul
            rw [← pow_succ']
            exact h
          have := log2fuel_le f (n / 2) k' hlt
          omega

theorem roundNEdiv_exact (a b : ℕ) (hb : 0 < b) (hmod : a % b = 0) :
    roundNEdiv a b = a / b := by
  unfold roundNEdiv
  rw [hmod]
  rw [if_pos (by omega)]

theorem hasChar_append_right {ch : Char} (l₁ : List Char) {l₂ : List Char}
    (h : hasChar ch l₂ = true) : hasChar ch (l₁ ++ l₂) = true := by
  induction l₁ with
  | nil => simpa
  | cons c cs ih =>
      show (decide (c = ch) || hasChar ch (cs ++ l₂)) = true
      rw [ih]
      simp

/-- Parsing `str(n) + ".0"` yields the digits value `10·n`, fraction
length 1, exponent 0, positive sign. -/
theorem pyParseDec_n0 (n : ℕ) :
    pyParseDec (natToChars n ++ ['.', '0']) = some (false, 10 * n, 1, 0) := by
  obtain ⟨c, r, hcr⟩ : ∃ c r, natToChars n = c :: r := by
    rcases hn : natToChars n with _ | ⟨c, r⟩
    · exact absurd hn (natToChars_ne_nil n)
    · exact ⟨c, r, rfl⟩
  have hcd : c.isDigit = true := natToChars_digits n c (by rw [hcr]; simp)
  have h1 : c ≠ '-' := fun he => by rw [he] at hcd; exact absurd hcd (by decide)
  have h2 : c ≠ '+' := fun he => by rw [he] at hcd; exact absurd hcd (by decide)
  have hsgn : parseSgn (natToChars n ++ ['.', '0'])
      = (false, natToChars n ++ ['.', '0']) := by
    rw [hcr, List.cons_append]
    simp only [parseSgn]
    rw [if_neg h1, if_neg h2, ← List.cons_append]
  have hs1 : (parseSgn (natToChars n ++ ['.', '0'])).1 = false := by rw [hsgn]
  have hs2 : (parseSgn (natToChars n ++ ['.', '0'])).2
      = natToChars n ++ ['.', '0'] := by rw [hsgn]
  have htw : (natToChars n ++ ['.', '0']).takeWhile Char.isDigit = natToChars n := by
    rw [takeWhile_append_all (natToChars_digits n),
      show List.takeWhile Char.isDigit ['.', '0'] = [] from rfl, List.append_nil]
  have hdw : (natToChars n ++ ['.', '0']).dropWhile Char.isDigit = ['.', '0'] :=
    dropWhile_append_all (natToChars_digits n) _
  have hnum : charsToNat (natToChars n ++ ['0']) = 10 * n := by
    rw [charsToNat_append_one, natToChars_eval]
    rfl
  unfold pyParseDec
  rw [hs1, hs2]
  unfold parseBody
  rw [hdw, htw]
  simp [natToChars_ne_nil n, hnum]


/-- Rounding `10·n / 10` to binary64 for `0 < n < 2^53`: the significand and
scale are exact (the value is representable). -/
theorem roundedPair_n0 (n : ℕ) (h0 : 0 < n) (h : n < 2 ^ 53) :
    roundedPair (10 * n) 10 = (n * 2 ^ (52 - log2n n), (log2n n : ℤ) - 52) := by
  have hdiv : 10 * n / 10 = n := Nat.mul_div_cancel_left n (by norm_num)
  have he : ratExp (10 * n) 10 = (log2n n : ℤ) := by
    unfold ratExp
    rw [if_pos (by omega), hdiv]
  have hle : log2n n ≤ 52 := log2fuel_le n n 52 h
  unfold roundedPair
  rw [if_neg (show ¬(10 * n = 0) by omega), he]
  by_cases h52 : log2n n = 52
  · rw [h52]
    rw [if_pos (by norm_num), if_pos (by norm_num)]
    have ht0 : (((52 : ℕ) : ℤ) - 52).toNat = 0 := by omega
    rw [ht0, pow_zero, mul_one,
      roundNEdiv_exact _ _ (by norm_num) (by omega), hdiv, mul_one]
  · have hlt2 : (log2n n : ℤ) - 52 < 0 := by omega
    rw [if_neg (by omega), if_pos (by omega)]
    have htn : (-((log2n n : ℤ) - 52)).toNat = 52 - log2n n := by omega
    rw [htn, show 10 * n * 2 ^ (52 - log2n n) = 10 * (n * 2 ^ (52 - log2n n)) from by ring,
      roundNEdiv_exact _ 10 (by norm_num) (Nat.mul_mod_right 10 _),
      Nat.mul_div_cancel_left _ (by norm_num : (0:ℕ) < 10)]

/-- Binary64 conversion is exact below `2^53`: rounding `10·n / 10` and
truncating toward zero gives back `n`. -/
theorem truncFloat_small (n : ℕ) (h0 : 0 < n) (h : n < 2 ^ 53) :
    truncFloat (10 * n) 10 = some n := by
  have hp := roundedPair_n0 n h0 h
  have hle : log2n n ≤ 52 := log2fuel_le n n 52 h
  have hov : overflowChk (n * 2 ^ (52 - log2n n)) ((log2n n : ℤ) - 52) = false := by
    unfold overflowChk
    by_cases h52 : log2n n = 52
    · rw [h52]
      have hlt : n * 2 ^ (52 - 52) * 2 ^ (((52 : ℕ) : ℤ) - 52).toNat < 2 ^ 1024 := by
        rw [show (((52 : ℕ) : ℤ) - 52).toNat = 0 by omega]
        norm_num
        calc n < 2 ^ 53 := h
          _ ≤ 2 ^ 1024 := by norm_num
      rw [decide_eq_false (by omega : ¬(2 ^ 1024 ≤ n * 2 ^ (52 - 52) * 2 ^ (((52 : ℕ) : ℤ) - 52).toNat)),
        Bool.and_false]
    · rw [decide_eq_false (show ¬((0:ℤ) ≤ (log2n n : ℤ) - 52) by omega), Bool.false_and]
  unfold truncFloat
  rw [hp]
  simp only at hov ⊢
  rw [hov]
  simp only [Bool.false_eq_true, if_false]
  by_cases h52 : log2n n = 52
  · rw [if_pos (by rw [h52]; norm_num), h52]
    rw [show (((52 : ℕ) : ℤ) - 52).toNat = 0 by omega]
    norm_num
  · rw [if_neg (by omega)]
    rw [show (-((log2n n : ℤ) - 52)).toNat = 52 - log2n n by omega]
    rw [Nat.mul_div_cancel _ (Nat.pos_pow_of_pos _ (by norm_num))]

/-- `int(float(str(n) + ".0")) = n` for `n < 2^53`. -/
theorem pyFloatToInt_n0 (n : ℕ) (h : n < 2 ^ 53) :
    pyFloatToInt (natToChars n ++ ['.', '0']) = some (n : ℤ) := by
  by_cases h0 : n = 0
  · subst h0; decide
  · unfold pyFloatToInt
    rw [pyParseDec_n0 n]
    have hnum : decNum (10 * n) 1 0 = 10 * n := by
      unfold decNum
      rw [if_neg (by decide)]
    have hden : decDen 1 0 = 10 := by decide
    simp only [hnum, hden]
    rw [if_neg (show ¬(10 * n = 0) by omega), truncFloat_small n (by omega) h]
    rfl

/-- C4 (counterexample): the claim asserts no precondition on the magnitude
of `n`, but `float` rounds to 53 significant bits, so
`"100000000000000001.0"` normalizes to `"100000000000000000"`, not to
`"100000000000000001"`. -/
theorem c4_counterexample :
    normalizeNumeric (natToChars 100000000000000001 ++ ['.', '0'])
        = natToChars 100000000000000000 ∧
    natToChars 100000000000000000 ≠ natToChars 100000000000000001 := by
  constructor
  · decide
  · decide

/-- Claim C4 (amended): for every numeric join key of the form `n.0` with
`n < 2^53` (the binary64 exact-integer range), the normalization step
yields exactly the plain integer string of `n`; beyond that range the
float round-trip rounds to the nearest representable integer, so the claim
as stated (with no precondition on the magnitude) fails.  Malformed values
containing a `.` that fail the float conversion pass through unchanged. -/
theorem c4_amended :
    (∀ n : ℕ, n < 2 ^ 53 →
      normalizeNumeric (natToChars n ++ ['.', '0']) = natToChars n) ∧
    (∀ s : List Char, hasChar '.' s = true → pyParseDec s = none →
      normalizeNumeric s = s) := by
  constructor
  · intro n h
    have hdot : hasChar '.' (natToChars n ++ ['.', '0']) = true :=
      hasChar_append_right _ (by decide)
    unfold normalizeNumeric
    rw [if_pos hdot, pyFloatToInt_n0 n h]
    show intToChars ((n : ℤ)) = natToChars n
    unfold intToChars
    rw [if_neg (show ¬((n : ℤ) < 0) by omega)]
    norm_num
  · intro s hdot hparse
    unfold normalizeNumeric
    rw [if_pos hdot]
    unfold pyFloatToInt
    rw [hparse]

/-- Witness for the amended C4 at `n = 5` and the malformed value `x.y`. -/
theorem c4_amended_witness :
    normalizeNumeric (natToChars 5 ++ ['.', '0']) = natToChars 5 ∧
    normalizeNumeric ['x', '.', 'y'] = ['x', '.', 'y'] :=
  ⟨c4_amended.1 5 (by norm_num), c4_amended.2 ['x', '.', 'y'] (by decide) (by decide)⟩

/-! ### The copy pipeline (src/match_pdfs.py) -/

/-- The literal `"nan"`, the rendering of a NaN cell. -/
def nanChars : List Char := ['n', 'a', 'n']

/-- Model of the row loop of `read_excel_id_numbers` (src/match_pdfs.py
96-110): each cell is rendered, stripped, skipped when empty or `"nan"`
(a NaN cell renders as the string `"nan"`, so the `pd.isna` test is
absorbed by the string test), float-normalized when it contains a dot, and
collected.  The Python set is modelled as a list probed with `inListB`;
duplicates do not affect membership.  No upper-casing happens here. -/
def readIds : List (List Char) → List (List Char)
  | [] => []
  | cell :: cs =>
    if pyStrip cell = nanChars ∨ pyStrip cell = [] then readIds cs
    else normalizeNumeric (pyStrip cell) :: readIds cs

/-- Outcome of one document in the copy pipeline's main loop
(src/match_pdfs.py 233-274): `unmatched` covers both extraction failure and
a failed set lookup (both increment `unmatched_count`), `matched` is a
successful copy, `err` a copy that raised. -/
inductive CopyOutcome
  | matched
  | unmatched
  | err
deriving DecidableEq

/-- Environment of the copy loop: the ID membership test (`id_number in
excel_id_numbers`) and an oracle telling which files fail to copy
(filesystem exceptions). -/
structure CopyEnv where
  inSet : List Char → Bool
  copyFails : List Char → Bool

/-- One iteration of the copy loop (src/match_pdfs.py 233-274): extraction
failure → unmatched; ID not in the set → unmatched; otherwise the copy
(including the collision search) either succeeds or raises. -/
def processCopy (env : CopyEnv) (f : List Char) : CopyOutcome :=
  match extractNameId f with
  | none => CopyOutcome.unmatched
  | some (_, idv) =>
    if env.inSet idv then
      if env.copyFails f then CopyOutcome.err else CopyOutcome.matched
    else CopyOutcome.unmatched

/-- The membership test applied by the copy loop to one document: extract,
then probe the spreadsheet ID collection. -/
def memberCheck (f : List Char) (cells : List (List Char)) : Bool :=
  match extractNameId f with
  | none => false
  | some (_, idv) => inListB idv (readIds cells)

/-- C1 (counterexample) spreadsheet cell ending in lowercase `x`. -/
def c1Cell : List Char :=
  ['1', '2', '3', '4', '5', '6', '7', '8', '9', '0', '1', '2', '3', '4', '5', '6', '7', 'x']

/-- C1 (counterexample): the filename token and the spreadsheet value
differ only in the case of the trailing `X`, yet the membership test
fails: extraction upper-cases the token, but `read_excel_id_numbers` does
not normalize the stored cell, so `...X ∈ {...x}` is false. -/
theorem c1_counterexample :
    extractNameId (pfxChars ++ (c1Cell ++ pdfChars)) = some ([], cxToken) ∧
    memberCheck (pfxChars ++ (c1Cell ++ pdfChars)) [c1Cell] = false := by
  constructor
  · decide
  · decide

/-- Claim C1 (amended): ID matching is case-insensitive on the filename
side only.  The extracted token is upper-cased at extraction, so whenever
the upper-cased spelling of the token occurs among the normalized
spreadsheet values, the membership test succeeds — in particular a
filename ending in `...x` matches a spreadsheet value ending `...X`.  The
reverse direction fails (see the counterexample): a spreadsheet value
ending in lowercase `x` is stored unnormalized and is matched by no
extracted ID. -/
theorem c1_amended (t : List Char) (cells : List (List Char))
    (ht : isId18 t = true)
    (hmem : inListB (upChars t) (readIds cells) = true) :
    memberCheck (pfxChars ++ (t ++ pdfChars)) cells = true := by
  unfold memberCheck
  rw [extractNameId_pfx_id ht]
  exact hmem

/-- Witness for the amended C1: lowercase filename token against the
uppercase spreadsheet spelling. -/
theorem c1_amended_witness :
    memberCheck (pfxChars ++ (cxTokenLower ++ pdfChars)) [cxToken] = true :=
  c1_amended cxTokenLower [cxToken] (by decide) (by decide)

/-- Claim C9: a filename that is exactly the prefix literal, a valid
18-character ID token and `.pdf` (no name segment) is extracted via the
fallback with an empty name rather than rejected, and the copy pipeline
then treats it as a candidate: it reaches the membership test, and when the
ID is in the spreadsheet set and the copy raises no error the document is
copied (outcome `matched`). -/
theorem c9_empty_name (t : List Char) (ht : isId18 t = true) :
    extractNameId (pfxChars ++ (t ++ pdfChars)) = some ([], upChars t) ∧
    (∀ env : CopyEnv, env.inSet (upChars t) = true →
      env.copyFails (pfxChars ++ (t ++ pdfChars)) = false →
      processCopy env (pfxChars ++ (t ++ pdfChars)) = CopyOutcome.matched) := by
  refine ⟨extractNameId_pfx_id ht, fun env hset hcopy => ?_⟩
  unfold processCopy
  rw [extractNameId_pfx_id ht]
  simp only [hset, if_true, hcopy, Bool.false_eq_true, if_false]

/-- Witness for C9 at a concrete lowercase token and a concrete
environment whose set holds the uppercase spelling. -/
theorem c9_empty_name_witness :
    extractNameId (pfxChars ++ (cxTokenLower ++ pdfChars)) = some ([], upChars cxTokenLower) ∧
    processCopy ⟨fun i => i == cxToken, fun _ => false⟩
      (pfxChars ++ (cxTokenLower ++ pdfChars)) = CopyOutcome.matched :=
  ⟨(c9_empty_name cxTokenLower (by decide)).1,
    (c9_empty_name cxTokenLower (by decide)).2
      ⟨fun i => i == cxToken, fun _ => false⟩ (by decide) (by decide)⟩

/-! ### Grammar C: `extract_name_from_filename` (src/match_pdfs_by_name.py
104-154) -/

/-- The marker word 承诺书. -/
def markChars : List Char := ['承', '诺', '书']

/-- The literal `-承诺书` following the name in pattern 1. -/
def dashMark : List Char := ['-', '承', '诺', '书']

/-- The literal `承诺书-` opening pattern 2. -/
def markDash : List Char := ['承', '诺', '书', '-']

/-- The pattern tail `(?:\(\d+\))?\.pdf$`: either exactly `.pdf`, or a
parenthesized non-empty digit run followed by exactly `.pdf`.  The greedy
optional group backtracks to the bare `.pdf` alternative exactly when the
parenthesized parse fails, which this disjunction captures. -/
def optParenPdf (l : List Char) : Bool :=
  l == pdfChars ||
    match l with
    | c :: rest =>
        c = '(' && !(rest.takeWhile Char.isDigit = []) &&
          (rest.dropWhile Char.isDigit == ')' :: pdfChars)
    | [] => false

/-- Pattern 1 `^(.+?)-承诺书(?:\(\d+\))?\.pdf$`: grow the non-greedy name
one character at a time; after each character, try the literal `-承诺书`
and the tail. -/
def p1Aux (acc : List Char) : List Char → Option (List Char)
  | [] => none
  | c :: rest =>
    if c = '\n' then none
    else if List.isPrefixOf dashMark rest && optParenPdf (rest.drop 4) then
      some (c :: acc).reverse
    else p1Aux (c :: acc) rest

/-- Model of `re.match` for pattern 1 of `extract_name_from_filename`. -/
def matchP1 (f : List Char) : Option (List Char) := p1Aux [] f

/-- The name search of pattern 2 (`(.+?)(?:\(\d+\))?\.pdf$` after the
literal): shortest non-empty non-newline name whose remainder is the tail. -/
def p2Aux (acc : List Char) : List Char → Option (List Char)
  | [] => none
  | c :: rest =>
    if c = '\n' then none
    else if optParenPdf rest then some (c :: acc).reverse
    else p2Aux (c :: acc) rest

/-- Model of `re.match` for pattern 2 `^承诺书-(.+?)(?:\(\d+\))?\.pdf$`. -/
def matchP2 (f : List Char) : Option (List Char) :=
  if List.isPrefixOf markDash f then p2Aux [] (f.drop 4) else none

/-- Pattern 3 `^(.+?)-(.+?)(?:\(\d+\))?\.pdf$`: the first non-greedy group
grows a character at a time; at each length, if a `-` follows, the second
group is searched (shortest first); on failure the first group keeps
growing (and may swallow the `-`). -/
def p3Aux (acc : List Char) : List Char → Option (List Char × List Char)
  | [] => none
  | c :: rest =>
    if c = '\n' then none
    else
      match rest with
      | r :: rest2 =>
        if r = '-' then
          match p2Aux [] rest2 with
          | some g2 => some ((c :: acc).reverse, g2)
          | none => p3Aux (c :: acc) rest
        else p3Aux (c :: acc) rest
      | [] => p3Aux (c :: acc) rest

/-- Model of `re.match` for pattern 3. -/
def matchP3 (f : List Char) : Option (List Char × List Char) := p3Aux [] f

/-- Pattern 3 branch of `extract_name_from_filename`. -/
def extractNameP3 (f : List Char) : Option (List Char) :=
  match matchP3 f with
  | some (a, b) =>
    if hasSub markChars (pyStrip b) then
      if pyStrip a ≠ [] then some (pyStrip a) else none
    else if hasSub markChars (pyStrip a) then
      if pyStrip b ≠ [] then some (pyStrip b) else none
    else none
  | none => none

/-- Patterns 2 and 3 of `extract_name_from_filename` (the continuation
after pattern 1 fails or strips to empty). -/
def extractNameP2 (f : List Char) : Option (List Char) :=
  match matchP2 f with
  | some n =>
    if pyStrip n ≠ [] then some (pyStrip n)
    else extractNameP3 f
  | none => extractNameP3 f

/-- Model of `extract_name_from_filename` (src/match_pdfs_by_name.py
104-154): the three patterns are tried in order; each candidate name is
stripped and must be non-empty, else the next pattern is tried (for
pattern 3, falling through to `return None`); pattern 3 prefers the part
opposite the one containing the marker word. -/
def extractName (f : List Char) : Option (List Char) :=
  match matchP1 f with
  | some n =>
    if pyStrip n ≠ [] then some (pyStrip n)
    else extractNameP2 f
  | none => extractNameP2 f

example : extractName ['陈', '玲', '-', '承', '诺', '书', '.', 'p', 'd', 'f']
    = some ['陈', '玲'] := by decide
example : extractName ['承', '诺', '书', '-', '陈', '冬', '如', '.', 'p', 'd', 'f']
    = some ['陈', '冬', '如'] := by decide
example : extractName ['x', '-', 'y', '.', 'p', 'd', 'f'] = none := by decide
example : extractName ['李', '雷', '-', '承', '诺', '书', '表', '.', 'p', 'd', 'f']
    = some ['李', '雷'] := by decide
example : extractName ['承', '诺', '书', '表', '-', '李', '雷', '.', 'p', 'd', 'f']
    = some ['李', '雷'] := by decide
example : extractName ['承', '诺', '书', '-', '(', '2', ')', '.', 'p', 'd', 'f']
    = some ['(', '2', ')'] := by decide

/-- The C7 filename `承诺书-李雷(2).pdf`. -/
def c7Input : List Char := ['承', '诺', '书', '-', '李', '雷', '(', '2', ')', '.', 'p', 'd', 'f']

/-- Claim C7: pattern precedence in Grammar C.  On `承诺书-李雷(2).pdf`
pattern 1 fails, pattern 2 matches and yields `李雷`, pattern 3 would also
match the same string (with the marker in its first part), and the
first-success-wins ordering makes the extractor return `李雷` via
pattern 2. -/
theorem c7_precedence :
    matchP1 c7Input = none ∧
    matchP2 c7Input = some ['李', '雷'] ∧
    matchP3 c7Input = some (['承', '诺', '书'], ['李', '雷']) ∧
    extractName c7Input = some ['李', '雷'] := by
  refine ⟨by decide, by decide, by decide, by decide⟩

/-! ### Column resolution (src/main.py 61-75, src/match_pdfs.py 58-68,
src/match_pdfs_by_name.py 58-66) -/

/-- The marker 合同编号 (contract number). -/
def contractMark : List Char := ['合', '同', '编', '号']

/-- The marker 姓名 (name). -/
def nameMark : List Char := ['姓', '名']

/-- The marker 身份证号 (ID number). -/
def idMark : List Char := ['身', '份', '证', '号']

/-- The shorter marker 身份证 also accepted for the ID column. -/
def idMark2 : List Char := ['身', '份', '证']

/-- Column predicate of the rename pipeline's contract marker. -/
def contractP (col : List Char) : Bool := hasSub contractMark (pyStrip col)

/-- Column predicate for the name marker. -/
def nameP (col : List Char) : Bool := hasSub nameMark (pyStrip col)

/-- Column predicate for the ID markers (either spelling). -/
def idP (col : List Char) : Bool :=
  hasSub idMark (pyStrip col) || hasSub idMark2 (pyStrip col)

/-- Model of the column loop of `read_excel_mapping` (src/main.py 61-68):
an if/elif chain with NO break, so each matching column overwrites the
previously recorded one; a column matching an earlier marker in the chain
is not considered for the later roles. -/
def mainColsAux :
    Option (List Char) × Option (List Char) × Option (List Char) →
    List (List Char) →
    Option (List Char) × Option (List Char) × Option (List Char)
  | acc, [] => acc
  | (co, na, idc), col :: cs =>
    if contractP col then mainColsAux (some col, na, idc) cs
    else if nameP col then mainColsAux (co, some col, idc) cs
    else if idP col then mainColsAux (co, na, some col) cs
    else mainColsAux (co, na, idc) cs

/-- The three resolved columns of `read_excel_mapping`. -/
def mainCols (cols : List (List Char)) :
    Option (List Char) × Option (List Char) × Option (List Char) :=
  mainColsAux (none, none, none) cols

/-- Model of the ID-column loop of `read_excel_dataframe`
(src/match_pdfs.py 58-64): first match wins (the loop breaks). -/
def idColFind : List (List Char) → Option (List Char)
  | [] => none
  | col :: cs => if idP col then some col else idColFind cs

/-- Model of the name-column loop of `read_excel_dataframe`
(src/match_pdfs_by_name.py 58-64): first match wins (the loop breaks). -/
def nameColFind : List (List Char) → Option (List Char)
  | [] => none
  | col :: cs => if nameP col then some col else nameColFind cs

/-- C2 (counterexample) headers: two columns both containing the contract
marker. -/
def c2ColA : List Char := ['合', '同', '编', '号', '甲']

/-- C2 (counterexample) second header. -/
def c2ColB : List Char := ['合', '同', '编', '号', '乙']

/-- C2 (counterexample): the claim says all three pipelines resolve to the
FIRST column whose header contains the marker; but `read_excel_mapping`
(src/main.py) has no break in its loop, so with two matching headers the
LAST one is recorded. -/
theorem c2_counterexample :
    (mainCols [c2ColA, c2ColB]).1 = some c2ColB ∧ c2ColB ≠ c2ColA := by
  refine ⟨by decide, by decide⟩

theorem mainColsAux_fst_none : ∀ (cols : List (List Char))
    (acc : Option (List Char) × Option (List Char) × Option (List Char)),
    (∀ d ∈ cols, contractP d = false) → (mainColsAux acc cols).1 = acc.1
  | [], _, _ => rfl
  | col :: cs, (co, na, idc), h => by
      have hc : contractP col = false := h col (by simp)
      have hrest : ∀ d ∈ cs, contractP d = false := fun d hd => h d (by simp [hd])
      simp only [mainColsAux, hc, Bool.false_eq_true, if_false]
      by_cases hn : nameP col = true
      · rw [if_pos hn]; exact mainColsAux_fst_none cs _ hrest
      · rw [if_neg hn]
        by_cases hi : idP col = true
        · rw [if_pos hi]; exact mainColsAux_fst_none cs _ hrest
        · rw [if_neg hi]; exact mainColsAux_fst_none cs _ hrest

theorem mainColsAux_append : ∀ (l₁ l₂ : List (List Char))
    (acc : Option (List Char) × Option (List Char) × Option (List Char)),
    mainColsAux acc (l₁ ++ l₂) = mainColsAux (mainColsAux acc l₁) l₂
  | [], _, _ => rfl
  | col :: cs, l₂, (co, na, idc) => by
      simp only [List.cons_append, mainColsAux]
      by_cases h1 : contractP col = true
      · rw [if_pos h1, if_pos h1]; exact mainColsAux_append cs l₂ _
      · rw [if_neg h1, if_neg h1]
        by_cases h2 : nameP col = true
        · rw [if_pos h2, if_pos h2]; exact mainColsAux_append cs l₂ _
        · rw [if_neg h2, if_neg h2]
          by_cases h3 : idP col = true
          · rw [if_pos h3, if_pos h3]; exact mainColsAux_append cs l₂ _
          · rw [if_neg h3, if_neg h3]; exact mainColsAux_append cs l₂ _

theorem idColFind_first : ∀ (pre : List (List Char)) (c : List Char)
    (post : List (List Char)),
    (∀ d ∈ pre, idP d = false) → idP c = true →
    idColFind (pre ++ c :: post) = some c
  | [], c, post, _, hc => by simp [idColFind, hc]
  | d :: ds, c, post, h, hc => by
      have hd : idP d = false := h d (by simp)
      simp only [List.cons_append, idColFind, hd, Bool.false_eq_true, if_false]
      exact idColFind_first ds c post (fun e he => h e (by simp [he])) hc

theorem nameColFind_first : ∀ (pre : List (List Char)) (c : List Char)
    (post : List (List Char)),
    (∀ d ∈ pre, nameP d = false) → nameP c = true →
    nameColFind (pre ++ c :: post) = some c
  | [], c, post, _, hc => by simp [nameColFind, hc]
  | d :: ds, c, post, h, hc => by
      have hd : nameP d = false := h d (by simp)
      simp only [List.cons_append, nameColFind, hd, Bool.false_eq_true, if_false]
      exact nameColFind_first ds c post (fun e he => h e (by simp [he])) hc

/-- Claim C2 (amended): in the copy and move pipelines the resolver selects
the FIRST column whose header contains the marker (their loops break on
the first hit); in the rename pipeline (`read_excel_mapping`) the loop has
no break, so the LAST matching column wins for the contract marker. -/
theorem c2_amended :
    (∀ (pre : List (List Char)) (c : List Char) (post : List (List Char)),
      contractP c = true → (∀ d ∈ post, contractP d = false) →
      (mainCols (pre ++ c :: post)).1 = some c) ∧
    (∀ (pre : List (List Char)) (c : List Char) (post : List (List Char)),
      (∀ d ∈ pre, idP d = false) → idP c = true →
      idColFind (pre ++ c :: post) = some c) ∧
    (∀ (pre : List (List Char)) (c : List Char) (post : List (List Char)),
      (∀ d ∈ pre, nameP d = false) → nameP c = true →
      nameColFind (pre ++ c :: post) = some c) := by
  refine ⟨?_, idColFind_first, nameColFind_first⟩
  intro pre c post hc hpost
  unfold mainCols
  rw [mainColsAux_append pre (c :: post) _]
  rcases hacc : mainColsAux (none, none, none) pre with ⟨co, na, idc⟩
  simp only [mainColsAux, hc, if_pos]
  exact mainColsAux_fst_none post _ hpost

/-- Witness for the amended C2: two contract headers (last wins in the
rename pipeline), and first-match selections in the other two pipelines. -/
theorem c2_amended_witness :
    (mainCols ([c2ColA] ++ c2ColB :: [])).1 = some c2ColB ∧
    idColFind ([nameMark] ++ idMark :: []) = some idMark ∧
    nameColFind ([contractMark] ++ nameMark :: []) = some nameMark :=
  ⟨c2_amended.1 [c2ColA] c2ColB [] (by decide) (by decide),
    c2_amended.2.1 [nameMark] idMark [] (by decide) (by decide),
    c2_amended.2.2 [contractMark] nameMark [] (by decide) (by decide)⟩

/-! ### Main-loop outcome counting (src/main.py 159-221,
src/match_pdfs.py 223-274, src/match_pdfs_by_name.py 204-251) -/

/-- Outcome of one document in the rename pipeline's loop: one of the
three counters `success_count` / `failed_count` / `skipped_count`. -/
inductive RenOutcome
  | success
  | failed
  | skippedFmt
deriving DecidableEq

/-- Environment of the rename loop: the contract mapping, the
destination-exists test and the rename-failure oracle. -/
structure RenameEnv where
  mapping : List Char → Option (List Char × List Char)
  destEx : List Char → Bool
  renameFails : List Char → Bool

/-- Validity test applied to the name and ID fields (src/main.py 186-194):
non-empty and not `"nan"` after stripping. -/
def fieldOk (s : List Char) : Bool :=
  !(pyStrip s == ([] : List Char) || pyStrip s == nanChars)

/-- The composed target filename `协商解除劳动合同协议书_{name}{id}.pdf`
(src/main.py 197). -/
def renameTarget (n i : List Char) : List Char := pfxChars ++ n ++ i ++ pdfChars

/-- One iteration of the rename loop (src/main.py 168-213): format
mismatch → skipped; missing mapping entry, empty payload field, destination
collision, or rename exception → failed; otherwise success.  Exactly one
outcome per document. -/
def processRename (env : RenameEnv) (f : List Char) : RenOutcome :=
  match extractContractNumber f with
  | none => RenOutcome.skippedFmt
  | some num =>
    match env.mapping num with
    | none => RenOutcome.failed
    | some (n, i) =>
      if fieldOk n = false then RenOutcome.failed
      else if fieldOk i = false then RenOutcome.failed
      else if env.destEx (renameTarget n i) && !(renameTarget n i == f) then
        RenOutcome.failed
      else if env.renameFails f then RenOutcome.failed
      else RenOutcome.success

/-- Environment of the move loop (src/match_pdfs_by_name.py): the name
membership test and the move-failure oracle. -/
structure MoveEnv where
  nameSet : List Char → Bool
  moveFails : List Char → Bool

/-- One iteration of the move loop (src/match_pdfs_by_name.py 214-251):
same outcome structure as the copy loop, with Grammar C extraction and
name-set membership. -/
def processMove (env : MoveEnv) (f : List Char) : CopyOutcome :=
  match extractName f with
  | none => CopyOutcome.unmatched
  | some n =>
    if env.nameSet n then
      if env.moveFails f then CopyOutcome.err else CopyOutcome.matched
    else CopyOutcome.unmatched

theorem countP_copyOutcome {α : Type} (g : α → CopyOutcome) (files : List α) :
    files.countP (fun f => g f == CopyOutcome.matched)
      + files.countP (fun f => g f == CopyOutcome.unmatched)
      + files.countP (fun f => g f == CopyOutcome.err) = files.length := by
  induction files with
  | nil => rfl
  | cons f fs ih =>
      simp only [List.countP_cons]
      cases h : g f <;> simp [h] <;> omega

theorem countP_renOutcome {α : Type} (g : α → RenOutcome) (files : List α) :
    files.countP (fun f => g f == RenOutcome.success)
      + files.countP (fun f => g f == RenOutcome.failed)
      + files.countP (fun f => g f == RenOutcome.skippedFmt) = files.length := by
  induction files with
  | nil => rfl
  | cons f fs ih =>
      simp only [List.countP_cons]
      cases h : g f <;> simp [h] <;> omega

/-- Claim C6: in each pipeline's main loop every document yields exactly
one outcome, so the outcome counters sum to the number of files discovered
by the single scan: success+failed+skipped in the rename pipeline, and
matched+unmatched+error in the copy and move pipelines, each equal the
length of the scanned file list, for every environment. -/
theorem c6_counter_sums (re : RenameEnv) (ce : CopyEnv) (me : MoveEnv)
    (files : List (List Char)) :
    (files.countP (fun f => processRename re f == RenOutcome.success)
      + files.countP (fun f => processRename re f == RenOutcome.failed)
      + files.countP (fun f => processRename re f == RenOutcome.skippedFmt)
      = files.length) ∧
    (files.countP (fun f => processCopy ce f == CopyOutcome.matched)
      + files.countP (fun f => processCopy ce f == CopyOutcome.unmatched)
      + files.countP (fun f => processCopy ce f == CopyOutcome.err)
      = files.length) ∧
    (files.countP (fun f => processMove me f == CopyOutcome.matched)
      + files.countP (fun f => processMove me f == CopyOutcome.unmatched)
      + files.countP (fun f => processMove me f == CopyOutcome.err)
      = files.length) :=
  ⟨countP_renOutcome (processRename re) files,
    countP_copyOutcome (processCopy ce) files,
    countP_copyOutcome (processMove me) files⟩

/-! ### Collision-avoidance naming (src/match_pdfs.py 254-271,
src/match_pdfs_by_name.py 231-248 — textually identical loops) -/

/-- The candidate destination name `{base_name}_{counter}{ext}`. -/
def suffixName (base ext : List Char) (k : ℕ) : List Char :=
  base ++ '_' :: (natToChars k ++ ext)

/-- The `while dest_path.exists()` loop, entered when the unsuffixed
destination already exists: starting at `counter = 1`, try
`{base}_{k}{ext}` for k = 1, 2, … until a free name is found.  The Python
loop is unbounded; fuel makes the model total, and a `some` result is
exactly a terminating run of the loop. -/
def findFree (occupied : List Char → Bool) (base ext : List Char) :
    ℕ → ℕ → Option (List Char)
  | _, 0 => none
  | k, fuel + 1 =>
    if occupied (suffixName base ext k) then findFree occupied base ext (k + 1) fuel
    else some (suffixName base ext k)

/-- The collision-avoidance search as run by both pipelines. -/
def collisionDest (occupied : List Char → Bool) (base ext : List Char)
    (fuel : ℕ) : Option (List Char) :=
  findFree occupied base ext 1 fuel

theorem findFree_spec : ∀ (fuel k₀ : ℕ) (occupied : List Char → Bool)
    (base ext d : List Char),
    findFree occupied base ext k₀ fuel = some d →
    ∃ k, k₀ ≤ k ∧ d = suffixName base ext k ∧ occupied d = false ∧
      ∀ j, k₀ ≤ j → j < k → occupied (suffixName base ext j) = true
  | 0, _, _, _, _, _, h => by simp [findFree] at h
  | fuel + 1, k₀, occupied, base, ext, d, h => by
      unfold findFree at h
      by_cases hocc : occupied (suffixName base ext k₀) = true
      · rw [if_pos hocc] at h
        obtain ⟨k, hk1, hk2, hk3, hk4⟩ :=
          findFree_spec fuel (k₀ + 1) occupied base ext d h
        refine ⟨k, by omega, hk2, hk3, fun j hj1 hj2 => ?_⟩
        by_cases hjk : j = k₀
        · rw [hjk]; exact hocc
        · exact hk4 j (by omega) hj2
      · rw [if_neg hocc] at h
        have hd : d = suffixName base ext k₀ := by
          simpa [eq_comm] using h
        exact ⟨k₀, le_refl _, hd, by rw [hd]; simpa using hocc,
          fun j hj1 hj2 => absurd (lt_of_le_of_lt hj1 hj2) (lt_irrefl _)⟩

/-- Claim C8: whenever the collision-avoidance loop of the copy/move
pipelines terminates with a destination name, that name is
`{base}_{k}{ext}` for the SMALLEST integer suffix `k ≥ 1` that is not
occupied (every suffix from 1 below `k` is occupied), and the selected
name itself is not occupied — an existing name is never selected. -/
theorem c8_collision_suffix (occupied : List Char → Bool) (base ext d : List Char)
    (fuel : ℕ) (h : collisionDest occupied base ext fuel = some d) :
    ∃ k, 1 ≤ k ∧ d = suffixName base ext k ∧ occupied d = false ∧
      ∀ j, 1 ≤ j → j < k → occupied (suffixName base ext j) = true :=
  findFree_spec fuel 1 occupied base ext d h

/-- Witness for C8: with `{base}_1{ext}` occupied, the search returns
`{base}_2{ext}`, the smallest free suffix. -/
theorem c8_collision_suffix_witness :
    collisionDest (fun p => p == suffixName ['a'] pdfChars 1) ['a'] pdfChars 5
        = some (suffixName ['a'] pdfChars 2) ∧
    ∃ k, 1 ≤ k ∧ suffixName ['a'] pdfChars 2 = suffixName ['a'] pdfChars k ∧
      (fun p => p == suffixName ['a'] pdfChars 1) (suffixName ['a'] pdfChars 2) = false ∧
      ∀ j, 1 ≤ j → j < k →
        (fun p => p == suffixName ['a'] pdfChars 1) (suffixName ['a'] pdfChars j) = true :=
  ⟨by decide,
    c8_collision_suffix (fun p => p == suffixName ['a'] pdfChars 1) ['a'] pdfChars
      (suffixName ['a'] pdfChars 2) 5 (by decide)⟩

/-! ### Annotation write-back and backups (src/match_pdfs.py 322-344,
src/match_pdfs_by_name.py 287-309 — textually identical).  The filesystem
is a partial map from paths to file contents (an ℕ tag); the step is the
exact sequence of primitive operations the code performs. -/

/-- Delete a path. -/
def fsDel (fs : List Char → Option ℕ) (p : List Char) : List Char → Option ℕ :=
  fun q => if q = p then none else fs q

/-- Write (create or overwrite) a file. -/
def fsWrite (fs : List Char → Option ℕ) (p : List Char) (v : ℕ) :
    List Char → Option ℕ :=
  fun q => if q = p then some v else fs q

/-- `Path.rename`: the destination receives the source content, the source
disappears. -/
def fsRename (fs : List Char → Option ℕ) (src dst : List Char) :
    List Char → Option ℕ :=
  fun q => if q = dst then fs src else if q = src then none else fs q

/-- `shutil.copy2`: the destination receives the source content. -/
def fsCopy (fs : List Char → Option ℕ) (src dst : List Char) :
    List Char → Option ℕ :=
  fun q => if q = dst then fs src else fs q

/-- `if backup_path.exists(): backup_path.unlink()`. -/
def unlinkIfEx (fs : List Char → Option ℕ) (p : List Char) :
    List Char → Option ℕ :=
  match fs p with
  | some _ => fsDel fs p
  | none => fs

/-- The `.xls` spreadsheet path for a given stem. -/
def xlsPath (stem : List Char) : List Char := stem ++ ['.', 'x', 'l', 's']

/-- `excel_path.with_suffix(".xlsx")`. -/
def xlsxPath (stem : List Char) : List Char := stem ++ ['.', 'x', 'l', 's', 'x']

/-- `excel_path.with_suffix(".xlsx.backup")` in the `.xls` branch. -/
def bakPath (stem : List Char) : List Char :=
  stem ++ ['.', 'x', 'l', 's', 'x', '.', 'b', 'a', 'c', 'k', 'u', 'p']

/-- `excel_path.with_suffix(".backup")` in the `.xlsx` branch. -/
def bak2Path (stem : List Char) : List Char :=
  stem ++ ['.', 'b', 'a', 'c', 'k', 'u', 'p']

/-- State after the `.xls` branch deletes any stale backup
(src/match_pdfs.py 328-330). -/
def saveXlsStep1 (fs : List Char → Option ℕ) (stem : List Char) :
    List Char → Option ℕ :=
  unlinkIfEx fs (bakPath stem)

/-- State after the original `.xls` file is renamed to the backup path
(src/match_pdfs.py 331). -/
def saveXlsStep2 (fs : List Char → Option ℕ) (stem : List Char) :
    List Char → Option ℕ :=
  fsRename (saveXlsStep1 fs stem) (xlsPath stem) (bakPath stem)

/-- Final state of the `.xls` branch: the annotated table is written to the
`.xlsx` path (src/match_pdfs.py 332-333). -/
def saveXlsFinal (fs : List Char → Option ℕ) (stem : List Char) (newC : ℕ) :
    List Char → Option ℕ :=
  fsWrite (saveXlsStep2 fs stem) (xlsxPath stem) newC

/-- Final state of the non-`.xls` branch: stale backup deleted, current
file copied to the backup path, annotated table written in place
(src/match_pdfs.py 338-342). -/
def saveXlsxFinal (fs : List Char → Option ℕ) (stem : List Char) (newC : ℕ) :
    List Char → Option ℕ :=
  fsWrite (fsCopy (unlinkIfEx fs (bak2Path stem)) (xlsxPath stem) (bak2Path stem))
    (xlsxPath stem) newC

theorem append_ne_of_length_ne {stem a b : List Char} (h : a.length ≠ b.length) :
    stem ++ a ≠ stem ++ b := by
  intro he
  have := congrArg List.length he
  simp only [List.length_append] at this
  omega

theorem unlinkIfEx_other {fs : List Char → Option ℕ} {p q : List Char}
    (h : q ≠ p) : unlinkIfEx fs p q = fs q := by
  unfold unlinkIfEx
  cases fs p <;> simp [fsDel, h]

/-- Claim C10: in the write-back step, any pre-existing file at the fixed
backup path is deleted before the new backup is created, so after the step
the backup path holds exactly the current spreadsheet content (one
generation); and in the `.xls` case the original file is renamed to the
backup path before the new `.xlsx` is written, so from that point on
(including after the write, which targets the distinct `.xlsx` path)
no file exists at the original spreadsheet path. -/
theorem c10_backup (fs fs2 : List Char → Option ℕ) (stem : List Char)
    (c c2 newC : ℕ) (hx : fs (xlsPath stem) = some c)
    (hx2 : fs2 (xlsxPath stem) = some c2) :
    saveXlsStep2 fs stem (xlsPath stem) = none ∧
    saveXlsFinal fs stem newC (xlsPath stem) = none ∧
    saveXlsFinal fs stem newC (bakPath stem) = some c ∧
    saveXlsFinal fs stem newC (xlsxPath stem) = some newC ∧
    saveXlsxFinal fs2 stem newC (bak2Path stem) = some c2 ∧
    saveXlsxFinal fs2 stem newC (xlsxPath stem) = some newC := by
  have hne1 : xlsPath stem ≠ bakPath stem := append_ne_of_length_ne (by decide)
  have hne2 : xlsxPath stem ≠ xlsPath stem := append_ne_of_length_ne (by decide)
  have hne3 : xlsxPath stem ≠ bakPath stem := append_ne_of_length_ne (by decide)
  have hne4 : bakPath stem ≠ xlsPath stem := append_ne_of_length_ne (by decide)
  have hne5 : bak2Path stem ≠ xlsxPath stem := append_ne_of_length_ne (by decide)
  have hs1x : saveXlsStep1 fs stem (xlsPath stem) = some c := by
    rw [saveXlsStep1, unlinkIfEx_other hne1, hx]
  refine ⟨?_, ?_, ?_, ?_, ?_, ?_⟩
  · unfold saveXlsStep2 fsRename
    rw [if_neg hne1]
    simp
  · unfold saveXlsFinal fsWrite
    rw [if_neg (Ne.symm hne2)]
    unfold saveXlsStep2 fsRename
    rw [if_neg hne1]
    simp
  · unfold saveXlsFinal fsWrite
    rw [if_neg (Ne.symm hne3)]
    unfold saveXlsStep2 fsRename
    rw [if_pos rfl, hs1x]
  · unfold saveXlsFinal fsWrite
    rw [if_pos rfl]
  · unfold saveXlsxFinal fsWrite fsCopy
    rw [if_neg hne5, if_pos rfl, unlinkIfEx_other (Ne.symm hne5), hx2]
  · unfold saveXlsxFinal fsWrite
    rw [if_pos rfl]

/-- Witness for C10 at a concrete filesystem that already holds a stale
backup (content 3), showing it is replaced by the current content 7. -/
theorem c10_backup_witness :
    saveXlsStep2 (fun p => if p = xlsPath ['a'] then some 7
        else if p = bakPath ['a'] then some 3 else none) ['a'] (xlsPath ['a']) = none ∧
    saveXlsFinal (fun p => if p = xlsPath ['a'] then some 7
        else if p = bakPath ['a'] then some 3 else none) ['a'] 9 (xlsPath ['a']) = none ∧
    saveXlsFinal (fun p => if p = xlsPath ['a'] then some 7
        else if p = bakPath ['a'] then some 3 else none) ['a'] 9 (bakPath ['a']) = some 7 ∧
    saveXlsFinal (fun p => if p = xlsPath ['a'] then some 7
        else if p = bakPath ['a'] then some 3 else none) ['a'] 9 (xlsxPath ['a']) = some 9 ∧
    saveXlsxFinal (fun p => if p = xlsxPath ['a'] then some 5 else none) ['a'] 9
        (bak2Path ['a']) = some 5 ∧
    saveXlsxFinal (fun p => if p = xlsxPath ['a'] then some 5 else none) ['a'] 9
        (xlsxPath ['a']) = some 9 :=
  c10_backup (fun p => if p = xlsPath ['a'] then some 7
      else if p = bakPath ['a'] then some 3 else none)
    (fun p => if p = xlsxPath ['a'] then some 5 else none)
    ['a'] 7 5 9 (by decide) (by decide)
